import Mathlib

/-!
Verification of the gatewaygui peer-to-peer gateway core against its
natural-language specification.

Shallow embedding conventions:
* Rust byte slices and vectors are `List Nat` (each element a byte value).
* Rust strings are `String` or `List Char`; for the ASCII inputs of all
  theorems the byte/char distinction is immaterial.
* `Utc::now()` and `tokio::time::Instant` become explicit `now : Nat`
  parameters (seconds); `DateTime` values are `Nat` timestamps.
* External libraries (zstd, sha2, serde_json) are parameters of the model,
  constrained only by their documented contracts, never re-implemented.
* Fallible Rust functions return `Option`; `None` is the `Err` case.
-/

/-! ## Association-list model of `HashMap` / `DashMap`

`insert` replaces any previous binding of the key, like `HashMap::insert`.
The list order stands in for the (unspecified) iteration order of the map.
-/

def alookup {α : Type} : List (Nat × α) → Nat → Option α
  | [], _ => none
  | p :: t, k => if p.1 = k then some p.2 else alookup t k

def aerase {α : Type} (l : List (Nat × α)) (k : Nat) : List (Nat × α) :=
  l.filter (fun p => p.1 != k)

def ainsert {α : Type} (l : List (Nat × α)) (k : Nat) (v : α) : List (Nat × α) :=
  (k, v) :: aerase l k

theorem alookup_ainsert_self {α : Type} (l : List (Nat × α)) (k : Nat) (v : α) :
    alookup (ainsert l k v) k = some v := by
  simp [alookup, ainsert]

/-! ## Compression Manager (src-tauri/src/gateway/compression.rs)

The zstd library is modelled by a `Codec`: `enc` is `zstd::bulk::compress`
at the configured level (total: on in-memory byte slices the only failure
mode of the Rust call is allocation, and its error path falls back to the
same 0-tagged frame as the not-smaller path, so merging them preserves
every observable of `compress`); `decCap` is `zstd::bulk::decompress`
with an output-capacity argument.  `Codec.Lawful` is the documented
contract of the pair: decompressing a compressed buffer yields the
original exactly when it fits in the capacity, and errors otherwise.
-/

structure CompressionCfg where
  level : Int
  min_compress_size : Nat
  max_chunk_size : Nat

structure Codec where
  enc : List Nat → List Nat
  decCap : List Nat → Nat → Option (List Nat)

def Codec.Lawful (c : Codec) : Prop :=
  ∀ x cap, c.decCap (c.enc x) cap = if x.length ≤ cap then some x else none

/-- `CompressionFlag` with `From<u8>`: `1` is `Zstd`, every other byte is
`None` (compression.rs lines 132-139). -/
inductive CompressionFlag where
  | uncompressed
  | zstdFlag
deriving DecidableEq

def flagOfByte (b : Nat) : CompressionFlag :=
  if b = 1 then CompressionFlag.zstdFlag else CompressionFlag.uncompressed

/-- `CompressionManager::compress` (compression.rs lines 181-217): inputs
below `min_compress_size` are framed uncompressed; otherwise zstd output is
used only when strictly shorter than the input. -/
def compress (c : Codec) (cfg : CompressionCfg) (data : List Nat) : List Nat :=
  if data.length < cfg.min_compress_size then 0 :: data
  else
    let compressed := c.enc data
    if data.length ≤ compressed.length then 0 :: data
    else 1 :: compressed

/-- `CompressionManager::decompress` (compression.rs lines 227-255): empty
input yields empty output; otherwise the first byte selects the branch and
the zstd branch decodes with capacity `max_chunk_size`. -/
def decompress (c : Codec) (cfg : CompressionCfg) (data : List Nat) : Option (List Nat) :=
  match data with
  | [] => some []
  | b :: payload =>
    match flagOfByte b with
    | CompressionFlag.uncompressed => some payload
    | CompressionFlag.zstdFlag => c.decCap payload cfg.max_chunk_size

/-- A concrete lawful codec used for witnesses: all-zero inputs shorter than
256 bytes compress to a two-byte run-length form, everything else is stored
with a one-byte marker. -/
def rleEnc (x : List Nat) : List Nat :=
  if (∀ b ∈ x, b = 0) ∧ x.length < 256 then [0, x.length] else 1 :: x

def rleDecCap (y : List Nat) (cap : Nat) : Option (List Nat) :=
  match y with
  | 0 :: n :: [] => if n ≤ cap then some (List.replicate n 0) else none
  | 1 :: rest => if rest.length ≤ cap then some rest else none
  | _ => none

def rleCodec : Codec := { enc := rleEnc, decCap := rleDecCap }

theorem rleCodec_lawful : Codec.Lawful rleCodec := by
  intro x cap
  show rleDecCap (rleEnc x) cap = _
  unfold rleEnc
  by_cases h : (∀ b ∈ x, b = 0) ∧ x.length < 256
  · rw [if_pos h]
    have hx : x = List.replicate x.length 0 := List.eq_replicate_of_mem h.1
    simp only [rleDecCap]
    by_cases hc : x.length ≤ cap
    · rw [if_pos hc, if_pos hc, ← hx]
    · rw [if_neg hc, if_neg hc]
  · rw [if_neg h]
    simp only [rleDecCap]

def exCfg : CompressionCfg := { level := 3, min_compress_size := 2, max_chunk_size := 4 }

/-- Claim C3, counterexample: with a lawful codec, an all-zero input of 8
bytes (at or above `min_compress_size`, compressing strictly smaller, and
larger than `max_chunk_size`) is framed with tag 1, and `decompress` then
fails because `decompress_zstd` caps its output at `max_chunk_size`.  So
the round-trip does not succeed for every byte sequence. -/
theorem c3_roundtrip_counterexample :
    Codec.Lawful rleCodec ∧
    decompress rleCodec exCfg (compress rleCodec exCfg (List.replicate 8 0)) = none :=
  ⟨rleCodec_lawful, by decide⟩

/-- Claim C3, amended: for every lawful codec and every input whose length
is at most `max_chunk_size`, the round-trip returns the input exactly; and
independently of that bound, `compress` emits a 1-tagged frame holding the
zstd body only when the zstd output is strictly shorter than the input, and
otherwise a 0-tagged frame followed by the input unchanged. -/
theorem c3_compress_decompress_amended (c : Codec) (hc : Codec.Lawful c)
    (cfg : CompressionCfg) (data : List Nat)
    (hlen : data.length ≤ cfg.max_chunk_size) :
    decompress c cfg (compress c cfg data) = some data ∧
    (compress c cfg data = 0 :: data ∨
      (compress c cfg data = 1 :: c.enc data ∧ (c.enc data).length < data.length)) := by
  have e0 : decompress c cfg (0 :: data) = some data := by
    simp [decompress, flagOfByte]
  have e1 : decompress c cfg (1 :: c.enc data) = some data := by
    show (match flagOfByte 1 with
      | CompressionFlag.uncompressed => some (c.enc data)
      | CompressionFlag.zstdFlag => c.decCap (c.enc data) cfg.max_chunk_size) = some data
    rw [show flagOfByte 1 = CompressionFlag.zstdFlag from rfl,
      hc data cfg.max_chunk_size, if_pos hlen]
  by_cases h1 : data.length < cfg.min_compress_size
  · have hcmp : compress c cfg data = 0 :: data := by
      unfold compress; rw [if_pos h1]
    rw [hcmp]
    exact ⟨e0, Or.inl rfl⟩
  · by_cases h2 : data.length ≤ (c.enc data).length
    · have hcmp : compress c cfg data = 0 :: data := by
        unfold compress; rw [if_neg h1, if_pos h2]
      rw [hcmp]
      exact ⟨e0, Or.inl rfl⟩
    · have hcmp : compress c cfg data = 1 :: c.enc data := by
        unfold compress; rw [if_neg h1, if_neg h2]
      rw [hcmp]
      exact ⟨e1, Or.inr ⟨rfl, by omega⟩⟩

/-- Witness for the amended C3 theorem at a concrete compressible input. -/
theorem c3_amended_witness :
    decompress rleCodec exCfg (compress rleCodec exCfg [0, 0, 0]) = some [0, 0, 0] ∧
    (compress rleCodec exCfg [0, 0, 0] = 0 :: [0, 0, 0] ∨
      (compress rleCodec exCfg [0, 0, 0] = 1 :: rleCodec.enc [0, 0, 0] ∧
        (rleCodec.enc [0, 0, 0]).length < ([0, 0, 0] : List Nat).length)) :=
  c3_compress_decompress_amended rleCodec rleCodec_lawful exCfg [0, 0, 0] (by decide)

/-- Claim C10: decompression framing is non-strict and total over the tag
byte.  Any frame whose first byte is not 1 succeeds and returns the tail
unchanged, the empty frame yields the empty sequence, and a failing frame
necessarily starts with tag byte 1. -/
theorem c10_decompress_total_on_tag (c : Codec) (cfg : CompressionCfg) :
    decompress c cfg [] = some [] ∧
    (∀ b payload, b ≠ 1 → decompress c cfg (b :: payload) = some payload) ∧
    (∀ frame, decompress c cfg frame = none → ∃ payload, frame = 1 :: payload) := by
  refine ⟨rfl, ?_, ?_⟩
  · intro b payload hb
    simp [decompress, flagOfByte, hb]
  · intro frame h
    match frame with
    | [] => simp [decompress] at h
    | b :: payload =>
      by_cases hb : b = 1
      · exact ⟨payload, by rw [hb]⟩
      · simp [decompress, flagOfByte, hb] at h

/-- Witness for C10 at the unknown tag byte 7. -/
theorem c10_witness : decompress rleCodec exCfg [7, 2, 3] = some [2, 3] :=
  (c10_decompress_total_on_tag rleCodec exCfg).2.1 7 [2, 3] (by decide)

/-! ## Mount Manager search tokens (gateway/src/gateway/mount.rs)

Paths and patterns are `List Char`; the byte-indexed Rust slicing
`&pattern[..len-1]` removes the final one-byte character and is
`List.dropLast` here.
-/

structure SearchTokenM where
  token_id : String
  mount_id : String
  allowed_patterns : List (List Char)
  permissions : List String
  created_at : Nat
  expires_at : Nat
  is_active : Bool

/-- `SearchToken::is_expired` (mount.rs lines 59-61): `Utc::now() > expires_at`. -/
def token_is_expired (t : SearchTokenM) (now : Nat) : Bool :=
  now > t.expires_at

/-- Rust `str::starts_with` on the char lists. -/
def beginsWith : List Char → List Char → Bool
  | _, [] => true
  | [], _ :: _ => false
  | c :: cs, d :: ds => c == d && beginsWith cs ds

/-- Rust `str::ends_with` on the char lists. -/
def closesWith (s suffix : List Char) : Bool :=
  beginsWith s.reverse suffix.reverse

/-- The per-pattern closure inside `is_path_authorized` (mount.rs lines
70-78): a pattern ending in `*` matches paths starting with the part before
the star; any other pattern matches only by exact equality. -/
def pattern_matches (path pat : List Char) : Bool :=
  if closesWith pat ['*'] then beginsWith path pat.dropLast
  else path == pat

/-- `SearchToken::is_path_authorized` (mount.rs lines 64-79). -/
def is_path_authorized (t : SearchTokenM) (now : Nat) (path : List Char) : Bool :=
  if !t.is_active || token_is_expired t now then false
  else t.allowed_patterns.any (fun pat => pattern_matches path pat)

def slookup {α : Type} (l : List (String × α)) (k : String) : Option α :=
  (l.find? (fun p => p.1 == k)).map (fun p => p.2)

/-- `MountManager::validate_search_token` (mount.rs lines 353-358): error
for an unknown token id, otherwise delegate to `is_path_authorized`. -/
def validate_search_token (tokens : List (String × SearchTokenM)) (token_id : String)
    (now : Nat) (path : List Char) : Option Bool :=
  (slookup tokens token_id).map (fun t => is_path_authorized t now path)

def c2Token : SearchTokenM :=
  { token_id := "t1", mount_id := "m1",
    allowed_patterns := [String.toList "*.txt"],
    permissions := ["read"], created_at := 0, expires_at := 100, is_active := true }

def c2TokenSub : SearchTokenM :=
  { c2Token with allowed_patterns := [String.toList "est"] }

/-- Claim C2 fails on the code: for the active, unexpired token with
pattern list `["*.txt"]` the path `"test.txt"` must be authorized under the
specified semantics (a leading-star pattern is a suffix match), and for
pattern list `["est"]` it must be authorized by substring containment; the
implemented matcher has neither branch and falls back to exact string
equality, so both validations return `false`.  The repository's own test
(mount.rs `test_search_token`) expects the first validation to return
`true`, so the code also contradicts its own test suite. -/
theorem c2_star_suffix_and_substring_rejected :
    validate_search_token [("t1", c2Token)] "t1" 0 (String.toList "test.txt") = some false ∧
    is_path_authorized c2TokenSub 0 (String.toList "test.txt") = false ∧
    c2Token.is_active = true ∧ token_is_expired c2Token 0 = false := by
  decide

/-! ## Transfer-task state machine (gateway/src/gateway/network.rs)

Only the fields touched by the status/progress logic are modelled; the
clock-derived `estimated_completion` field is omitted.
-/

inductive TransferStatusM where
  | pending
  | transferring
  | completed
  | cancelled
  | errored (msg : String)
deriving DecidableEq

structure TaskInfoM where
  status : TransferStatusM
  transferred_bytes : Nat
  transfer_speed : Nat
  total_bytes : Nat
  error_message : Option String
deriving DecidableEq

/-- `FileTransferTaskInfo::set_status` (network.rs lines 182-184):
unconditional overwrite. -/
def set_status (t : TaskInfoM) (s : TransferStatusM) : TaskInfoM :=
  { t with status := s }

/-- `FileTransferTaskInfo::set_error` (network.rs lines 187-190). -/
def set_error (t : TaskInfoM) (msg : String) : TaskInfoM :=
  { t with status := TransferStatusM.errored msg, error_message := some msg }

/-- `FileTransferTaskInfo::update_progress` (network.rs lines 169-179),
performed by the copy loop with no look at the current status. -/
def update_progress (t : TaskInfoM) (transferred speed : Nat) : TaskInfoM :=
  { t with transferred_bytes := transferred, transfer_speed := speed }

/-- The worker finalization of `execute_file_transfer` (network.rs lines
1393-1408): on Ok it stores the copied byte count and sets `Completed`, on
Err it calls `set_error`; in both cases without inspecting the current
status. -/
def finalize_transfer (t : TaskInfoM) (result : Option Nat) (errMsg : String) : TaskInfoM :=
  match result with
  | some bytes => set_status { t with transferred_bytes := bytes } TransferStatusM.completed
  | none => set_error t errMsg

/-- `NetworkManager::cancel_transfer` on a present task (network.rs lines
1531-1549): allowed only from `Pending` or `Transferring`, error from the
three terminal states. -/
def cancel_transfer (t : TaskInfoM) : Option TaskInfoM :=
  match t.status with
  | TransferStatusM.pending => some (set_status t TransferStatusM.cancelled)
  | TransferStatusM.transferring => some (set_status t TransferStatusM.cancelled)
  | _ => none

def c4Task : TaskInfoM :=
  { status := TransferStatusM.transferring, transferred_bytes := 0,
    transfer_speed := 0, total_bytes := 100, error_message := none }

/-- Claim C4 is right and the code is wrong: from `Transferring`,
`cancel_transfer` succeeds and sets `Cancelled`; but the still-running
worker neither checks for cancellation in its copy loop nor in its
finalization, so it keeps writing progress to the cancelled task and then
overwrites the terminal `Cancelled` with `Completed` (or `Error`).
Terminal states are therefore not sticky. -/
theorem c4_cancelled_overwritten :
    cancel_transfer c4Task = some (set_status c4Task TransferStatusM.cancelled) ∧
    (update_progress (set_status c4Task TransferStatusM.cancelled) 50 10).transferred_bytes
      = 50 ∧
    (finalize_transfer (set_status c4Task TransferStatusM.cancelled) (some 100) "").status
      = TransferStatusM.completed ∧
    (finalize_transfer (set_status c4Task TransferStatusM.cancelled) none "io error").status
      = TransferStatusM.errored "io error" := by
  refine ⟨rfl, rfl, rfl, rfl⟩

/-! ## Registry (gateway/src/gateway/registry.rs)

`Uuid` and `SocketAddr` are opaque identifiers, modelled as `Nat`.
-/

structure RegistryEntryM where
  id : Nat
  name : String
  address : Nat
  last_seen : Nat
deriving DecidableEq

structure RegistryM where
  entries : List (Nat × RegistryEntryM)
  local_id : Nat

/-- `Registry::add_or_update` (registry.rs lines 118-129): refuse the local
id, otherwise stamp `last_seen` with the current time and insert, returning
whether the id was previously absent. -/
def add_or_update (r : RegistryM) (e : RegistryEntryM) (now : Nat) : Bool × RegistryM :=
  if e.id = r.local_id then (false, r)
  else
    let stamped := { e with last_seen := now }
    let is_new := (alookup r.entries e.id).isNone
    (is_new, { r with entries := ainsert r.entries e.id stamped })

/-- `Registry::get` (registry.rs lines 140-142). -/
def registry_get (r : RegistryM) (id : Nat) : Option RegistryEntryM :=
  alookup r.entries id

theorem alookup_aerase_ne {α : Type} (l : List (Nat × α)) (k k2 : Nat) (h : k2 ≠ k) :
    alookup (aerase l k) k2 = alookup l k2 := by
  induction l with
  | nil => rfl
  | cons p t ih =>
    simp only [aerase, List.filter_cons] at ih ⊢
    have hk : ¬ k = k2 := fun hh => h hh.symm
    by_cases hp : p.1 = k
    · have h2 : ¬ p.1 = k2 := by rw [hp]; exact fun hh => h hh.symm
      simp [hp, h2, alookup, ih, hk]
    · by_cases hp2 : p.1 = k2
      · simp [hp, hp2, alookup, h]
      · simp [hp, hp2, alookup, ih, h]

theorem alookup_ainsert_ne {α : Type} (l : List (Nat × α)) (k k2 : Nat) (v : α)
    (h : k2 ≠ k) : alookup (ainsert l k v) k2 = alookup l k2 := by
  have hk : ¬ (k = k2) := fun hh => h hh.symm
  simp only [ainsert, alookup, hk, if_false]
  exact alookup_aerase_ne l k k2 h

/-- Claim C7: `add_or_update` is a no-op returning `false` on the local id
(and so preserves the invariant that the local id is never present);
otherwise it stores the descriptor with `last_seen` set to the current
time, so a subsequent `get` of that id observes `last_seen ≥ d.last_seen`
whenever the descriptor was stamped no later than the call, and it returns
`true` exactly when the id was previously absent. -/
theorem c7_add_or_update (r : RegistryM) (e : RegistryEntryM) (now : Nat) :
    (e.id = r.local_id → add_or_update r e now = (false, r)) ∧
    (e.id ≠ r.local_id →
      registry_get (add_or_update r e now).2 e.id = some { e with last_seen := now } ∧
      ((add_or_update r e now).1 = true ↔ registry_get r e.id = none) ∧
      (e.last_seen ≤ now → ∀ d, registry_get (add_or_update r e now).2 e.id = some d →
        e.last_seen ≤ d.last_seen)) ∧
    (registry_get r r.local_id = none →
      registry_get (add_or_update r e now).2 r.local_id = none) := by
  refine ⟨?_, ?_, ?_⟩
  · intro h
    simp [add_or_update, h]
  · intro h
    refine ⟨?_, ?_, ?_⟩
    · simp only [add_or_update, if_neg h, registry_get]
      exact alookup_ainsert_self r.entries e.id _
    · simp only [add_or_update, if_neg h, registry_get]
      cases hl : alookup r.entries e.id <;> simp [hl]
    · intro hle d hd
      simp only [add_or_update, if_neg h, registry_get] at hd
      rw [alookup_ainsert_self r.entries e.id _] at hd
      cases hd
      exact hle
  · intro habs
    by_cases h : e.id = r.local_id
    · simp only [add_or_update, if_pos h]
      exact habs
    · simp only [add_or_update, if_neg h, registry_get]
      rw [alookup_ainsert_ne r.entries e.id r.local_id _ (fun hk => h hk.symm)]
      exact habs

/-- Witness for C7 at a concrete registry and descriptor. -/
theorem c7_witness :
    registry_get
      (add_or_update { entries := [], local_id := 9 }
        { id := 4, name := "peer", address := 77, last_seen := 3 } 10).2 4 =
      some { id := 4, name := "peer", address := 77, last_seen := 10 } :=
  ((c7_add_or_update { entries := [], local_id := 9 }
    { id := 4, name := "peer", address := 77, last_seen := 3 } 10).2.1 (by decide)).1

/-! ## QUIC network manager broadcast (gateway/src/gateway/network.rs)

The observable behaviour of `broadcast_message` (lines 639-667) is traced
as a list of actions: one `sendAttempt` per broadcast address, in order,
whose outcome is given by the environment function `sendOk`, followed by
the event pushed to `event_sender`.  Message serialization
(`WdicMessage::to_bytes`, serde_json on a union of maps-free, float-free
structs) cannot fail and is not modelled.
-/

inductive NetAction where
  | sendAttempt (addr : Nat) (ok : Bool)
  | broadcastSentEvent
deriving DecidableEq

/-- The send loop of `broadcast_message` (network.rs lines 649-659):
successes increment the count, failures are logged and skipped. -/
def broadcastLoop (sendOk : Nat → Bool) (addrs : List Nat) (count : Nat)
    (trace : List NetAction) : Nat × List NetAction :=
  match addrs with
  | [] => (count, trace)
  | a :: rest =>
    broadcastLoop sendOk rest (if sendOk a then count + 1 else count)
      (trace ++ [NetAction.sendAttempt a (sendOk a)])

/-- `NetworkManager::broadcast_message` (network.rs lines 639-667): run the
loop over every broadcast address, then emit the single `BroadcastSent`
event, and return the success count. -/
def broadcast_message (addrs : List Nat) (sendOk : Nat → Bool) : Nat × List NetAction :=
  let r := broadcastLoop sendOk addrs 0 []
  (r.1, r.2 ++ [NetAction.broadcastSentEvent])

theorem broadcastLoop_spec (sendOk : Nat → Bool) (addrs : List Nat) (count : Nat)
    (trace : List NetAction) :
    broadcastLoop sendOk addrs count trace =
      (count + addrs.countP (fun a => sendOk a),
       trace ++ addrs.map (fun a => NetAction.sendAttempt a (sendOk a))) := by
  induction addrs generalizing count trace with
  | nil => simp [broadcastLoop]
  | cons a rest ih =>
    rw [broadcastLoop, ih]
    by_cases h : sendOk a = true
    · simp [List.countP_cons, h]
      omega
    · simp [List.countP_cons, h]

/-- Claim C9: every call of `broadcast_message` emits exactly one
`BroadcastSent` event; the trace places it after the send attempts to all
broadcast addresses; and per-address failures only lower the returned
count, which equals the number of successful sends. -/
theorem c9_broadcast_single_event (addrs : List Nat) (sendOk : Nat → Bool) :
    (broadcast_message addrs sendOk).2 =
      addrs.map (fun a => NetAction.sendAttempt a (sendOk a)) ++
        [NetAction.broadcastSentEvent] ∧
    (broadcast_message addrs sendOk).2.count NetAction.broadcastSentEvent = 1 ∧
    (broadcast_message addrs sendOk).1 = addrs.countP (fun a => sendOk a) := by
  have hb := broadcastLoop_spec sendOk addrs 0 []
  refine ⟨?_, ?_, ?_⟩
  · simp [broadcast_message, hb]
  · simp only [broadcast_message, hb]
    rw [List.count_append]
    simp [List.count_eq_zero, List.count_singleton]
  · simp [broadcast_message, hb]

/-! ## Path Validator (gateway/src/security.rs)

Unix `Path::components()` semantics on a `List Char` path: a leading slash
yields `RootDir`, empty segments are dropped, `.` is `CurDir` and `..` is
`ParentDir`.  (Rust drops non-leading `.` segments already inside
`components()`, while this model emits them as `CurDir`; `normalize_path`
skips `CurDir` unconditionally, so the two are observationally equal.)
The `PathBuf::pop` used for `..` fails exactly on an empty accumulated
path or a bare root, matching `parent() == None`.
-/

inductive PathComp where
  | rootDir
  | curDir
  | parentDir
  | normalComp (name : List Char)
deriving DecidableEq

def splitSlash : List Char → List (List Char)
  | [] => [[]]
  | c :: rest =>
    let r := splitSlash rest
    if c = '/' then [] :: r
    else (c :: r.headD []) :: r.tail

def segToComp (s : List Char) : Option PathComp :=
  if s = [] then none
  else if s = ['.'] then some PathComp.curDir
  else if s = ['.', '.'] then some PathComp.parentDir
  else some (PathComp.normalComp s)

def components (p : List Char) : List PathComp :=
  (if beginsWith p ['/'] then [PathComp.rootDir] else []) ++
    (splitSlash p).filterMap segToComp

/-- The loop body of `PathValidator::normalize_path` (security.rs lines
64-100): normal components are rejected if they contain byte 0x00 or 0x01
and pushed otherwise; `.` is skipped; `..` pops, failing on underflow;
the root is preserved. -/
def normalizeGo : List PathComp → Bool → List (List Char) →
    Option (Bool × List (List Char))
  | [], hasRoot, acc => some (hasRoot, acc.reverse)
  | PathComp.normalComp name :: rest, hasRoot, acc =>
    if name.contains (Char.ofNat 0) || name.contains (Char.ofNat 1) then none
    else normalizeGo rest hasRoot (name :: acc)
  | PathComp.curDir :: rest, hasRoot, acc => normalizeGo rest hasRoot acc
  | PathComp.parentDir :: _, _, [] => none
  | PathComp.parentDir :: rest, hasRoot, _ :: acc2 => normalizeGo rest hasRoot acc2
  | PathComp.rootDir :: rest, _, acc => normalizeGo rest true acc

def normalize_path (p : List Char) : Option (Bool × List (List Char)) :=
  normalizeGo (components p) false []

def compsOf (n : Bool × List (List Char)) : List PathComp :=
  (if n.1 then [PathComp.rootDir] else []) ++ n.2.map PathComp.normalComp

/-- Component-wise `Path::starts_with`. -/
def pcPrefix : List PathComp → List PathComp → Bool
  | [], _ => true
  | _ :: _, [] => false
  | a :: as1, b :: bs => a == b && pcPrefix as1 bs

/-- `PathValidator::validate_within_allowed_roots` (security.rs lines
103-118): an empty allow-list accepts everything. -/
def validate_within_allowed_roots (roots : List (Bool × List (List Char)))
    (n : Bool × List (List Char)) : Bool :=
  roots.isEmpty || roots.any (fun r => pcPrefix (compsOf r) (compsOf n))

/-- `PathValidator::validate_and_normalize` (security.rs lines 48-61).
Rust measures the 4096 cap in bytes of the input `&str`; the model counts
chars, identical for the ASCII inputs of every theorem below. -/
def validate_and_normalize (roots : List (Bool × List (List Char)))
    (p : List Char) : Option (Bool × List (List Char)) :=
  if p.length > 4096 then none
  else
    match normalize_path p with
    | none => none
    | some n => if validate_within_allowed_roots roots n then some n else none

/-- `PathValidator::validate_directory_depth` (security.rs lines 129-139),
a separate public method that `validate_and_normalize` never calls. -/
def validate_directory_depth (p : List Char) : Option Unit :=
  if (components p).length > 32 then none else some ()

def c5CtrlPath : List Char := ['a', Char.ofNat 2, 'b']

def c5DeepPath : List Char :=
  List.intercalate ['/'] (List.replicate 33 (['a'] : List Char))

/-- Claim C5, counterexample: the input `"a\x02b"` contains the control
byte 0x02 < 0x20, yet `validate_and_normalize` accepts it (only 0x00 and
0x01 are rejected); and a path of 33 components, exceeding the depth bound
32, is also accepted, because the depth check lives in the separate
`validate_directory_depth` which `validate_and_normalize` never invokes. -/
theorem c5_counterexample :
    validate_and_normalize [] c5CtrlPath = some (false, [['a', Char.ofNat 2, 'b']]) ∧
    (Char.ofNat 2).toNat < 32 ∧
    (validate_and_normalize [] c5DeepPath).isSome = true ∧
    32 < (components c5DeepPath).length := by
  decide

theorem normalizeGo_no_bad_char (comps : List PathComp) (hasRoot : Bool)
    (acc : List (List Char)) (out : Bool × List (List Char))
    (h : normalizeGo comps hasRoot acc = some out) :
    ∀ name, PathComp.normalComp name ∈ comps →
      name.contains (Char.ofNat 0) = false ∧ name.contains (Char.ofNat 1) = false := by
  induction comps generalizing hasRoot acc with
  | nil => intro name hmem; cases hmem
  | cons c rest ih =>
    intro name hmem
    match c with
    | PathComp.normalComp nm =>
      simp only [normalizeGo] at h
      by_cases hbad : (nm.contains (Char.ofNat 0) || nm.contains (Char.ofNat 1)) = true
      · rw [if_pos hbad] at h
        exact absurd h (by simp)
      · rw [if_neg hbad] at h
        rcases List.mem_cons.1 hmem with heq | hrest
        · cases heq
          constructor
          · cases h0 : name.contains (Char.ofNat 0)
            · rfl
            · exact absurd (by rw [h0]; rfl) hbad
          · cases h1 : name.contains (Char.ofNat 1)
            · rfl
            · exact absurd (by rw [h1, Bool.or_true]) hbad
        · exact ih hasRoot (nm :: acc) h name hrest
    | PathComp.curDir =>
      simp only [normalizeGo] at h
      rcases List.mem_cons.1 hmem with heq | hrest
      · cases heq
      · exact ih hasRoot acc h name hrest
    | PathComp.parentDir =>
      match acc with
      | [] =>
        simp only [normalizeGo] at h
        exact Option.noConfusion h
      | a :: acc2 =>
        simp only [normalizeGo] at h
        rcases List.mem_cons.1 hmem with heq | hrest
        · cases heq
        · exact ih hasRoot acc2 h name hrest
    | PathComp.rootDir =>
      simp only [normalizeGo] at h
      rcases List.mem_cons.1 hmem with heq | hrest
      · cases heq
      · exact ih true acc h name hrest

/-- Claim C5, amended: `validate_and_normalize` fails on inputs longer than
4096; among control characters it rejects exactly 0x00 and 0x01 inside
normal components (so any accepted path has none of those, while 0x02-0x1F
pass, as the counterexample shows); and the depth bound of 32 components is
enforced only by the separate method `validate_directory_depth`. -/
theorem c5_amended :
    (∀ roots p, p.length > 4096 → validate_and_normalize roots p = none) ∧
    (∀ roots p out, validate_and_normalize roots p = some out →
      ∀ name, PathComp.normalComp name ∈ components p →
        name.contains (Char.ofNat 0) = false ∧ name.contains (Char.ofNat 1) = false) ∧
    (∀ p, validate_directory_depth p = none ↔ 32 < (components p).length) := by
  refine ⟨?_, ?_, ?_⟩
  · intro roots p hlen
    simp [validate_and_normalize, hlen]
  · intro roots p out h name hmem
    rw [validate_and_normalize] at h
    by_cases hlen : p.length > 4096
    · rw [if_pos hlen] at h
      exact absurd h (by simp)
    · rw [if_neg hlen] at h
      cases hn : normalize_path p with
      | none => rw [hn] at h; exact absurd h (by simp)
      | some n =>
        rw [hn] at h
        exact normalizeGo_no_bad_char (components p) false [] n hn name hmem
  · intro p
    constructor
    · intro h
      by_cases hd : (components p).length > 32
      · exact hd
      · rw [validate_directory_depth, if_neg hd] at h
        cases h
    · intro hd
      rw [validate_directory_depth, if_pos hd]

/-- Witness for the amended C5 theorem: the length bound at 4097 chars. -/
theorem c5_amended_witness :
    validate_and_normalize [] (List.replicate 4097 'a') = none :=
  c5_amended.1 [] (List.replicate 4097 'a') (by rw [List.length_replicate]; omega)

/-! ## Cache (gateway/src/cache.rs)

### Metadata envelope (claim C6)

`to_fixed_bytes` is modelled over the serde_json byte form of the metadata
(`json`), with the random padding generator as an explicit function `pad`
(byte `i` of the filler is `pad i % 94 + 33`, as in the Rust RNG loop).
`from_fixed_bytes` takes the combined UTF-8 + serde_json parse as the
abstract function `parse`.
-/

def METADATA_SIZE : Nat := 512

/-- `CacheMetadata::to_fixed_bytes` (cache.rs lines 111-140): refuse a JSON
form longer than `METADATA_SIZE - 3` bytes; otherwise lay out the JSON,
then printable filler up to byte 509, then the JSON length in little-endian
in bytes 510 and 511. -/
def to_fixed_bytes (json : List Nat) (pad : Nat → Nat) : Option (List Nat) :=
  if json.length > METADATA_SIZE - 3 then none
  else some (json ++
    (List.range (METADATA_SIZE - 2 - json.length)).map (fun i => pad i % 94 + 33) ++
    [json.length % 256, json.length / 256 % 256])

def envMarker (bytes : List Nat) : Nat :=
  bytes.getD (METADATA_SIZE - 2) 0 + 256 * bytes.getD (METADATA_SIZE - 1) 0

/-- `CacheMetadata::from_fixed_bytes` (cache.rs lines 143-157): read the
little-endian length marker from the last two bytes, refuse markers of
`METADATA_SIZE - 2` or more, else parse the designated prefix. -/
def from_fixed_bytes {α : Type} (parse : List Nat → Option α) (bytes : List Nat) :
    Option α :=
  if envMarker bytes ≥ METADATA_SIZE - 2 then none
  else parse (bytes.take (envMarker bytes))

/-- Claim C6, counterexample: a metadata value whose JSON form is exactly
510 bytes does not serialize: the guard rejects every JSON form longer than
509 bytes. -/
theorem c6_counterexample :
    to_fixed_bytes (List.replicate 510 97) (fun _ => 0) = none := by
  have h : (List.replicate 510 97).length > METADATA_SIZE - 3 := by
    rw [List.length_replicate]
    norm_num [METADATA_SIZE]
  rw [to_fixed_bytes, if_pos h]

theorem take_len_append {α : Type} (a b : List α) : (a ++ b).take a.length = a := by
  induction a with
  | nil => rfl
  | cons x t ih => simp [ih]

/-- Claim C6, amended: serialization succeeds exactly for JSON forms of at
most 509 bytes (510 already fails); a successful envelope round-trips, the
marker designating exactly the JSON prefix; and `from_fixed_bytes` fails
exactly when the marker is 510 or more or the designated prefix fails to
parse as UTF-8/JSON. -/
theorem c6_envelope_amended {α : Type} (parse : List Nat → Option α)
    (json : List Nat) (pad : Nat → Nat) :
    ((to_fixed_bytes json pad).isSome ↔ json.length ≤ 509) ∧
    (json.length ≤ 509 →
      from_fixed_bytes parse ((to_fixed_bytes json pad).getD []) = parse json) ∧
    (∀ env : List Nat, from_fixed_bytes parse env = none ↔
      510 ≤ envMarker env ∨ parse (env.take (envMarker env)) = none) := by
  refine ⟨?_, ?_, ?_⟩
  · rw [to_fixed_bytes]
    by_cases h : json.length > METADATA_SIZE - 3
    · rw [if_pos h]
      simp only [METADATA_SIZE] at h
      simp
      omega
    · rw [if_neg h]
      simp only [METADATA_SIZE] at h
      simp
      omega
  · intro hle
    have hcond : ¬ json.length > METADATA_SIZE - 3 := by
      simp only [METADATA_SIZE]; omega
    rw [to_fixed_bytes, if_neg hcond, Option.getD_some]
    set padding := (List.range (METADATA_SIZE - 2 - json.length)).map
      (fun i => pad i % 94 + 33) with hpad
    have hplen : padding.length = METADATA_SIZE - 2 - json.length := by
      rw [hpad]; simp
    have hfront : (json ++ padding).length = METADATA_SIZE - 2 := by
      simp only [List.length_append, hplen, METADATA_SIZE]
      omega
    have hget0 : (json ++ padding ++ [json.length % 256, json.length / 256 % 256]).getD
        (METADATA_SIZE - 2) 0 = json.length % 256 := by
      rw [List.getD_eq_getElem?_getD, List.getElem?_append_right (by omega : (json ++ padding).length ≤ METADATA_SIZE - 2), hfront]
      simp
    have hget1 : (json ++ padding ++ [json.length % 256, json.length / 256 % 256]).getD
        (METADATA_SIZE - 1) 0 = json.length / 256 % 256 := by
      rw [List.getD_eq_getElem?_getD, List.getElem?_append_right (by omega : (json ++ padding).length ≤ METADATA_SIZE - 1), hfront]
      simp [METADATA_SIZE]
    have hmark : envMarker (json ++ padding ++ [json.length % 256, json.length / 256 % 256])
        = json.length := by
      rw [envMarker, hget0, hget1]
      omega
    rw [from_fixed_bytes, hmark, if_neg (by simp only [METADATA_SIZE]; omega)]
    have htake : (json ++ padding ++ [json.length % 256, json.length / 256 % 256]).take
        json.length = json := by
      rw [List.append_assoc]
      exact take_len_append json (padding ++ [json.length % 256, json.length / 256 % 256])
    rw [htake]
  · intro env
    rw [from_fixed_bytes]
    by_cases h : envMarker env ≥ METADATA_SIZE - 2
    · rw [if_pos h]
      simp only [METADATA_SIZE] at h
      simp
      omega
    · rw [if_neg h]
      simp only [METADATA_SIZE] at h
      constructor
      · intro hp
        exact Or.inr hp
      · intro hp
        rcases hp with hm | hp
        · omega
        · exact hp

/-- Witness for the amended C6 theorem: a one-byte JSON form round-trips
through the 512-byte envelope. -/
theorem c6_amended_witness :
    from_fixed_bytes some ((to_fixed_bytes [97] (fun _ => 32)).getD []) = some [97] :=
  (c6_envelope_amended some [97] (fun _ => 32)).2.1 (by simp)

/-! ### Cache store (claims C1 and C8)

`CacheCtx` bundles the external collaborators of `GatewayCache`:
`enc`/`dec` are `zstd::encode_all(data, 3)` / `zstd::decode_all`;
`contentHash`/`nameHash` are the hex SHA-256 of content and name
(opaque identifiers); `metaFits` records whether the metadata's JSON form
fits `to_fixed_bytes` (at most 509 bytes, claim C6); `suffix_bytes` are the
20 random trailer bytes; `detectMime` is `CacheMetadata::detect_mime_type`.
On-disk cache files are stored with their three segments
`[512-byte envelope | compressed body | suffix]` kept apart; the envelope
byte round-trip for a successful serialization is `c6_envelope_amended`.
The `f64` field `compression_ratio` of `CacheMetadata` is omitted
(floating point, untouched by every claim).  All u64 counter arithmetic is
release-mode wrapping arithmetic modulo `2^64`.
-/

def U64LIM : Nat := 18446744073709551616

def wadd (a b : Nat) : Nat := (a + b) % U64LIM

def wsub (a b : Nat) : Nat := (a % U64LIM + (U64LIM - b % U64LIM)) % U64LIM

structure CacheMetadataM where
  original_name : String
  original_size : Nat
  compressed_size : Nat
  file_hash : Nat
  created_at : Nat
  expires_at : Nat
  mime_type : String
  version : Nat
deriving DecidableEq

structure CacheCtx where
  enc : List Nat → List Nat
  dec : List Nat → Option (List Nat)
  contentHash : List Nat → Nat
  nameHash : String → Nat
  metaFits : CacheMetadataM → Bool
  suffix_bytes : List Nat
  detectMime : String → String

/-- `CacheMetadata::new` (cache.rs lines 47-76). -/
def mkMetadata (ctx : CacheCtx) (name : String) (data : List Nat) (ttl now : Nat) :
    CacheMetadataM :=
  { original_name := name, original_size := data.length,
    compressed_size := (ctx.enc data).length, file_hash := ctx.contentHash data,
    created_at := now, expires_at := now + ttl,
    mime_type := ctx.detectMime name, version := 1 }

/-- `CacheMetadata::is_expired` (cache.rs lines 160-162). -/
def metaExpired (m : CacheMetadataM) (now : Nat) : Bool :=
  now > m.expires_at

structure CacheFileM where
  envelope : CacheMetadataM
  body : List Nat
  tail_bytes : List Nat
deriving DecidableEq

def fileSize (f : CacheFileM) : Nat :=
  METADATA_SIZE + f.body.length + f.tail_bytes.length

structure CacheEntryM where
  metadata : CacheMetadataM
  cache_file_path : Nat
  access_count : Nat
  last_accessed : Nat
deriving DecidableEq

structure GatewayCacheM where
  cache_index : List (Nat × CacheEntryM)
  name_hash_index : List (Nat × Nat)
  default_ttl : Nat
  max_cache_size : Nat
  current_cache_size : Nat
  disk : List (Nat × CacheFileM)
deriving DecidableEq

/-- `GatewayCache::remove_cache_entry` (cache.rs lines 571-593), in source
order: take the entry out of `cache_index`; call `fs::remove_file` (which
succeeds exactly when the file exists); on success, call `metadata()` on
the just-deleted path — which fails, so `.map(len).unwrap_or(0)` yields 0 —
and saturating-subtract that from `current_cache_size`; finally drop the
name-hash binding. -/
def remove_cache_entry (ctx : CacheCtx) (st : GatewayCacheM) (file_hash : Nat) :
    GatewayCacheM :=
  match alookup st.cache_index file_hash with
  | none => st
  | some entry =>
    let index2 := aerase st.cache_index file_hash
    let afterDelete :=
      if (alookup st.disk entry.cache_file_path).isSome then
        let disk2 := aerase st.disk entry.cache_file_path
        let file_size := ((alookup disk2 entry.cache_file_path).map fileSize).getD 0
        (disk2, st.current_cache_size - file_size)
      else (st.disk, st.current_cache_size)
    { st with
      cache_index := index2
      disk := afterDelete.1
      current_cache_size := afterDelete.2
      name_hash_index :=
        aerase st.name_hash_index (ctx.nameHash entry.metadata.original_name) }

/-- `GatewayCache::cleanup_expired` (cache.rs lines 496-515): collect the
expired hashes, then remove each; returns the removal count. -/
def cleanup_expired (ctx : CacheCtx) (st : GatewayCacheM) (now : Nat) :
    GatewayCacheM × Nat :=
  let expired := (st.cache_index.filter
    (fun p => metaExpired p.2.metadata now)).map (fun p => p.1)
  (expired.foldl (fun s h => remove_cache_entry ctx s h) st, expired.length)

/-- The LRU accumulation loop of `ensure_cache_space` (cache.rs lines
543-556): walk the entries sorted by `last_accessed`, add each file's
current on-disk size to `freed_space`, record the hash, and stop once
`current - freed + required` fits the budget. -/
def lruCollect (st : GatewayCacheM) (required : Nat) :
    List (Nat × CacheEntryM) → Nat → List Nat → Nat × List Nat
  | [], freed, acc => (freed, acc)
  | (h, e) :: rest, freed, acc =>
    let fsz := ((alookup st.disk e.cache_file_path).map fileSize).getD 0
    let freed2 := wadd freed fsz
    let acc2 := acc ++ [h]
    if wadd (wsub st.current_cache_size freed2) required ≤ st.max_cache_size then
      (freed2, acc2)
    else lruCollect st required rest freed2 acc2

/-- `GatewayCache::ensure_cache_space` (cache.rs lines 518-568): return if
the budget already fits, else sweep expired entries, else evict in LRU
order of `last_accessed`. -/
def ensure_cache_space (ctx : CacheCtx) (st : GatewayCacheM) (now required : Nat) :
    GatewayCacheM :=
  if wadd st.current_cache_size required ≤ st.max_cache_size then st
  else
    let st1 := (cleanup_expired ctx st now).1
    if wadd st1.current_cache_size required ≤ st1.max_cache_size then st1
    else
      let sorted := st1.cache_index.mergeSort
        (fun a b => a.2.last_accessed ≤ b.2.last_accessed)
      let r := lruCollect st1 required sorted 0 []
      r.2.foldl (fun s h => remove_cache_entry ctx s h) st1

/-- `GatewayCache::cache_file` (cache.rs lines 296-372): hash name and
content, reserve `2 * len(data)` through the eviction pipeline, compress,
build and serialize the metadata (failing if its JSON form does not fit),
write `[envelope | compressed | suffix]` to `<nameHash>.cach`, then update
both indices and the size counter. -/
def cache_file (ctx : CacheCtx) (st : GatewayCacheM) (name : String) (data : List Nat)
    (ttl : Option Nat) (now : Nat) : Option Nat × GatewayCacheM :=
  let name_hash := ctx.nameHash name
  let content_hash := ctx.contentHash data
  let ttl2 := ttl.getD st.default_ttl
  let st1 := ensure_cache_space ctx st now (wadd data.length data.length)
  let compressed := ctx.enc data
  let metadata := mkMetadata ctx name data ttl2 now
  if ctx.metaFits metadata then
    let file : CacheFileM :=
      { envelope := metadata, body := compressed, tail_bytes := ctx.suffix_bytes }
    let entry : CacheEntryM :=
      { metadata := metadata, cache_file_path := name_hash,
        access_count := 0, last_accessed := now }
    (some content_hash,
      { st1 with
        disk := ainsert st1.disk name_hash file
        cache_index := ainsert st1.cache_index content_hash entry
        name_hash_index := ainsert st1.name_hash_index name_hash content_hash
        current_cache_size := wadd st1.current_cache_size (fileSize file) })
  else (none, st1)

/-- `GatewayCache::get_cached_file` (cache.rs lines 383-428): miss on an
absent hash; remove and miss on an expired entry; otherwise record the
access, re-read the file (envelope, then exactly `compressed_size` bytes),
decompress, and return bytes plus the envelope metadata.  The overall
result is `none` when the Rust function returns `Err`. -/
def get_cached_file (ctx : CacheCtx) (st : GatewayCacheM) (file_hash : Nat) (now : Nat) :
    Option (Option (List Nat × CacheMetadataM)) × GatewayCacheM :=
  match alookup st.cache_index file_hash with
  | none => (some none, st)
  | some entry =>
    if metaExpired entry.metadata now then
      (some none, remove_cache_entry ctx st file_hash)
    else
      let entry2 :=
        { entry with
          access_count := entry.access_count + 1
          last_accessed := now }
      let st2 := { st with cache_index := ainsert st.cache_index file_hash entry2 }
      match alookup st2.disk entry.cache_file_path with
      | none => (none, st2)
      | some file =>
        let rest := file.body ++ file.tail_bytes
        if rest.length < file.envelope.compressed_size then (none, st2)
        else
          match ctx.dec (rest.take file.envelope.compressed_size) with
          | none => (none, st2)
          | some data2 => (some (some (data2, file.envelope)), st2)

/-- The size-accounting invariant of claim C1: `current_cache_size` equals
the sum of the on-disk sizes of the files referenced by `cache_index`, and
stays within the budget. -/
abbrev sizeAccounted (st : GatewayCacheM) : Prop :=
  st.current_cache_size =
    (st.cache_index.map
      (fun p => ((alookup st.disk p.2.cache_file_path).map fileSize).getD 0)).sum ∧
  st.current_cache_size ≤ st.max_cache_size

def exCacheCtx : CacheCtx :=
  { enc := fun x => x, dec := some, contentHash := fun l => l.length,
    nameHash := fun s => s.length, metaFits := fun _ => true,
    suffix_bytes := List.replicate 20 0,
    detectMime := fun _ => "application/octet-stream" }

def c1Meta : CacheMetadataM :=
  { original_name := "abc", original_size := 1, compressed_size := 1,
    file_hash := 42, created_at := 0, expires_at := 0,
    mime_type := "application/octet-stream", version := 1 }

def c1File : CacheFileM :=
  { envelope := c1Meta, body := [5], tail_bytes := List.replicate 20 0 }

def c1Entry : CacheEntryM :=
  { metadata := c1Meta, cache_file_path := 3, access_count := 0, last_accessed := 0 }

def c1St : GatewayCacheM :=
  { cache_index := [(42, c1Entry)],
    name_hash_index := [(3, 42)], default_ttl := 60, max_cache_size := 1000,
    current_cache_size := 533, disk := [(3, c1File)] }

/-- Claim C1 is right and the code is wrong: starting from a state where
the invariant holds (one entry whose 533-byte file is on disk and
`current_cache_size = 533 ≤ 1000`), removing that entry — directly, or via
`cleanup_expired` once it is expired — deletes the file and the index rows
but leaves `current_cache_size` at 533, because `remove_cache_entry` stats
the file only after deleting it and `unwrap_or(0)` turns the failure into a
zero-byte decrement.  The invariant `current = Σ on-disk sizes` is broken
by the very mutation that is supposed to maintain it. -/
theorem c1_size_accounting_broken :
    sizeAccounted c1St ∧
    metaExpired c1Meta 1 = true ∧
    (remove_cache_entry exCacheCtx c1St 42).cache_index = [] ∧
    (remove_cache_entry exCacheCtx c1St 42).disk = [] ∧
    (remove_cache_entry exCacheCtx c1St 42).current_cache_size = 533 ∧
    ¬ sizeAccounted (remove_cache_entry exCacheCtx c1St 42) ∧
    (cleanup_expired exCacheCtx c1St 1).1 = remove_cache_entry exCacheCtx c1St 42 := by
  decide

theorem get_cached_file_found (ctx : CacheCtx) (st : GatewayCacheM) (h now : Nat)
    (entry : CacheEntryM) (file : CacheFileM) (d : List Nat)
    (hent : alookup st.cache_index h = some entry)
    (hexp : metaExpired entry.metadata now = false)
    (hdisk : alookup st.disk entry.cache_file_path = some file)
    (hlen : ¬ (file.body ++ file.tail_bytes).length < file.envelope.compressed_size)
    (hdec2 : ctx.dec ((file.body ++ file.tail_bytes).take file.envelope.compressed_size)
      = some d) :
    (get_cached_file ctx st h now).1 = some (some (d, file.envelope)) := by
  simp only [get_cached_file, hent, hexp, Bool.false_eq_true, if_false, hdisk]
  rw [if_neg hlen]
  simp only [hdec2]

/-- Claim C8: after a successful put with positive ttl, an immediate get by
the content hash returns exactly the stored bytes together with metadata
whose `original_size` is the byte length of the data.  `hdec` is the zstd
round-trip contract and `hfits` says the metadata's JSON form fits the
512-byte envelope (cache.rs would fail the put otherwise). -/
theorem c8_put_get_roundtrip (ctx : CacheCtx)
    (hdec : ∀ x, ctx.dec (ctx.enc x) = some x)
    (st : GatewayCacheM) (name : String) (data : List Nat) (ttl now : Nat)
    (httl : 0 < ttl)
    (hfits : ctx.metaFits (mkMetadata ctx name data ttl now) = true) :
    (cache_file ctx st name data (some ttl) now).1 = some (ctx.contentHash data) ∧
    (get_cached_file ctx (cache_file ctx st name data (some ttl) now).2
        (ctx.contentHash data) now).1 =
      some (some (data, mkMetadata ctx name data ttl now)) ∧
    (mkMetadata ctx name data ttl now).original_size = data.length := by
  refine ⟨?_, ?_, rfl⟩
  · simp only [cache_file, Option.getD_some, hfits, if_true]
  · simp only [cache_file, Option.getD_some, hfits, if_true]
    refine get_cached_file_found ctx _ (ctx.contentHash data) now
      { metadata := mkMetadata ctx name data ttl now,
        cache_file_path := ctx.nameHash name, access_count := 0, last_accessed := now }
      { envelope := mkMetadata ctx name data ttl now, body := ctx.enc data,
        tail_bytes := ctx.suffix_bytes }
      data (alookup_ainsert_self _ _ _) ?_ ?_ ?_ ?_
    · simp only [metaExpired, mkMetadata]
      simp only [gt_iff_lt, decide_eq_false_iff_not, not_lt]
      omega
    · exact alookup_ainsert_self _ _ _
    · simp only [mkMetadata, List.length_append]
      omega
    · simp only [mkMetadata]
      rw [take_len_append]
      exact hdec data

def c8EmptySt : GatewayCacheM :=
  { cache_index := [], name_hash_index := [], default_ttl := 60,
    max_cache_size := 1000000, current_cache_size := 0, disk := [] }

/-- Witness for C8: put three bytes into an empty cache, then get them back
by content hash. -/
theorem c8_witness :
    (cache_file exCacheCtx c8EmptySt "f" [1, 2, 3] (some 5) 0).1 =
      some (exCacheCtx.contentHash [1, 2, 3]) ∧
    (get_cached_file exCacheCtx (cache_file exCacheCtx c8EmptySt "f" [1, 2, 3] (some 5) 0).2
        (exCacheCtx.contentHash [1, 2, 3]) 0).1 =
      some (some ([1, 2, 3], mkMetadata exCacheCtx "f" [1, 2, 3] 5 0)) ∧
    (mkMetadata exCacheCtx "f" [1, 2, 3] 5 0).original_size = ([1, 2, 3] : List Nat).length :=
  c8_put_get_roundtrip exCacheCtx (fun x => rfl) c8EmptySt "f" [1, 2, 3] 5 0
    (by decide) (by decide)
